import Mathlib

/-!
Verification of the refinement-search core of AI-Steward.

Shallow embedding conventions:
* Python `dict`s coming back from `json.loads` become association lists with
  unique keys (`objInsert` mirrors the last-write-wins build order of a dict).
* Python floats are embedded as exact rationals `ℚ`; the scoring formulas of
  the spec are stated over real-number arithmetic, which `ℚ` realises exactly
  on every constant appearing in the code.
* Fallible Python code (code that can raise) returns `Option`.
* The generative oracle (`llm_infer` / `get_response_from_llm`) is an external
  collaborator; it is modelled as an explicit function parameter.
* Unicode NFKC normalization (`normalize_text`) is the identity on every key
  occurring in this code base (all ASCII), and is modelled as the identity.
* Scanning helpers that replace Python regular expressions are written with an
  explicit fuel argument purely to make termination obvious; callers always
  pass ample fuel, mirroring the unbounded regex scan.
-/

namespace AISteward

/-- A parsed JSON value, as produced by `json.loads`.  Python keeps `int` and
`float` apart (and `bool` apart from both), which matters for `isinstance`
checks in `compare_dict`, so the embedding keeps them apart too. -/
inductive JsonVal where
  | jnull : JsonVal
  | jbool : Bool → JsonVal
  | jint : Int → JsonVal
  | jfloat : ℚ → JsonVal
  | jstr : String → JsonVal
  | jarr : List JsonVal → JsonVal
  | jobj : List (String × JsonVal) → JsonVal

/-- The primitive Python types usable as schema leaves (`str`, `int`, `float`,
`bool`). -/
inductive PyTy where
  | pstr | pint | pfloat | pbool
deriving DecidableEq

/-- A schema shape: nested dict of shapes, list of prototype shapes, a python
type leaf, or a literal value leaf (the source schemas mix types and literal
example values; `compare_dict` ignores literal leaves). -/
inductive Shape where
  | sdict : List (String × Shape) → Shape
  | slist : List Shape → Shape
  | sty : PyTy → Shape
  | sval : JsonVal → Shape

/-- The single-quote character, kept out of the source text. -/
def squote : Char := Char.ofNat 39

/-- `unicodedata.normalize("NFKC", text)`: every key handled by this code base
is plain ASCII, on which NFKC is the identity, so it is modelled as such. -/
def normalize_text (s : String) : String := s

/-- Lookup in a Python dict modelled as an association list; Python dict
semantics are last-write-wins, hence the lookup prefers the last binding. -/
def objGet (o : List (String × JsonVal)) (k : String) : Option JsonVal :=
  match o with
  | [] => none
  | (k₁, v) :: rest =>
    match objGet rest k with
    | some w => some w
    | none => if k₁ = k then some v else none

/-- `d.get(k, default)`. -/
def objGetD (o : List (String × JsonVal)) (k : String) (d : JsonVal) : JsonVal :=
  (objGet o k).getD d

/-- Insertion into a Python dict: overwrite in place if the key exists,
append otherwise. -/
def objInsert (o : List (String × JsonVal)) (k : String) (v : JsonVal) :
    List (String × JsonVal) :=
  if o.any (fun kv => kv.1 = k) then
    o.map (fun kv => if kv.1 = k then (k, v) else kv)
  else o ++ [(k, v)]

/-- `k in d` for a dict. -/
def objHasKey (o : List (String × JsonVal)) (k : String) : Bool :=
  o.any (fun kv => kv.1 = k)

/-- Substring test, used for the Python expression `"thinkings" in k`. -/
def containsSub (hay needle : String) : Bool :=
  (hay.toList.tails).any (fun t => needle.toList.isPrefixOf t)

/-- Python truthiness of a JSON value (`bool(v)` / `if v:`). -/
def pyTruthy : JsonVal → Bool
  | .jnull => false
  | .jbool b => b
  | .jint n => n ≠ 0
  | .jfloat q => q ≠ 0
  | .jstr s => s ≠ ""
  | .jarr l => ¬ l.isEmpty
  | .jobj o => ¬ o.isEmpty

/-- Python `float(v)` coercion on JSON values.  Numbers and bools convert;
containers and `None` raise (`none`).  Conversion of numeric strings is not
modelled (treated as a failure); no claim exercises it. -/
def pyFloat : JsonVal → Option ℚ
  | .jint n => some (n : ℚ)
  | .jfloat q => some q
  | .jbool b => some (if b then 1 else 0)
  | _ => none

/-- `v or 0.0`: keep `v` if truthy, else the float zero. -/
def pyOrZero (v : JsonVal) : JsonVal :=
  if pyTruthy v then v else .jfloat 0

/-- `isinstance(target, shapeType)` for the four schema leaf types.  In Python
`bool` is a subclass of `int`, so a bool passes an `int` check. -/
def pyIsinstance : JsonVal → PyTy → Bool
  | .jstr _, .pstr => true
  | .jint _, .pint => true
  | .jbool _, .pint => true
  | .jbool _, .pbool => true
  | .jfloat _, .pfloat => true
  | _, _ => false

/- ### A strict JSON parser modelling `json.loads`.

Accepts exactly the RFC JSON grammar fragment used by the repository:
objects, arrays, double-quoted strings with the common escapes, integers,
decimal floats with optional exponent, `true`/`false`/`null`.  Single quotes,
bare keys, trailing commas, leading zeros and raw control characters inside
strings are rejected, as `json.loads` rejects them.  `\uXXXX` escapes are not
modelled (treated as a parse failure); no claim exercises them. -/

/-- JSON insignificant whitespace (the only four characters `json.loads`
skips). -/
def isJsonWs (c : Char) : Bool := c = ' ' ∨ c = '\t' ∨ c = '\n' ∨ c = '\r'

def skipWs : List Char → List Char
  | [] => []
  | c :: cs => if isJsonWs c then skipWs cs else c :: cs

def parseStringBody (fuel : ℕ) (cs : List Char) (acc : List Char) :
    Option (String × List Char) :=
  match fuel, cs with
  | 0, _ => none
  | _, [] => none
  | f + 1, c :: cs =>
    if c = '"' then some (String.mk acc.reverse, cs)
    else if c = '\\' then
      match cs with
      | [] => none
      | e :: cs₁ =>
        let esc : Option Char :=
          if e = '"' then some '"'
          else if e = '\\' then some '\\'
          else if e = '/' then some '/'
          else if e = 'n' then some '\n'
          else if e = 't' then some '\t'
          else if e = 'r' then some '\r'
          else if e = 'b' then some (Char.ofNat 8)
          else if e = 'f' then some (Char.ofNat 12)
          else none
        match esc with
        | some ch => parseStringBody f cs₁ (ch :: acc)
        | none => none
    else if c.toNat < 32 then none
    else parseStringBody f cs (c :: acc)

def digitsToNat (ds : List Char) : ℕ :=
  ds.foldl (fun n d => 10 * n + (d.toNat - 48)) 0

/-- Build the numeric value once sign, integer digits, fraction digits and
exponent are known; a fraction or exponent makes it a float. -/
def mkNumber (neg : Bool) (ip fp : List Char) (hasExp : Bool) (ex : Int) : JsonVal :=
  if fp = [] ∧ ¬ hasExp then
    .jint (if neg then -(digitsToNat ip : Int) else (digitsToNat ip : Int))
  else
    let base : ℚ := (digitsToNat ip : ℚ) + (digitsToNat fp : ℚ) / (10 : ℚ) ^ fp.length
    let v : ℚ := base * (10 : ℚ) ^ ex
    .jfloat (if neg then -v else v)

def parseExpPart (neg : Bool) (ip fp : List Char) (hadFrac : Bool) (cs : List Char) :
    Option (JsonVal × List Char) :=
  match cs with
  | e :: cs₁ =>
    if e = 'e' ∨ e = 'E' then
      let (esign, cs₂) : Int × List Char :=
        match cs₁ with
        | '+' :: t => (1, t)
        | c :: t => if c = '-' then (-1, t) else (1, cs₁)
        | [] => (1, [])
      let ed := cs₂.takeWhile (fun c => c.isDigit)
      if ed = [] then none
      else some (mkNumber neg ip fp true (esign * (digitsToNat ed : Int)),
                 cs₂.drop ed.length)
    else some (mkNumber neg ip fp hadFrac 0, cs)
  | [] => some (mkNumber neg ip fp hadFrac 0, [])

def parseNumber (cs : List Char) : Option (JsonVal × List Char) :=
  let (neg, cs₁) : Bool × List Char :=
    match cs with
    | c :: t => if c = '-' then (true, t) else (false, cs)
    | [] => (false, cs)
  let ip := cs₁.takeWhile (fun c => c.isDigit)
  match ip with
  | [] => none
  | d :: ds =>
    if d = '0' ∧ ds ≠ [] then none
    else
      let cs₂ := cs₁.drop ip.length
      match cs₂ with
      | '.' :: cs₃ =>
        let fp := cs₃.takeWhile (fun c => c.isDigit)
        if fp = [] then none
        else parseExpPart neg ip fp true (cs₃.drop fp.length)
      | _ => parseExpPart neg ip [] false cs₂

/-- Check that the literal (`true`, `false`, `null`) is next, and return the
rest. -/
def parseLit (lit : List Char) (cs : List Char) : Option (List Char) :=
  if lit.isPrefixOf cs then some (cs.drop lit.length) else none

mutual

def parseVal (fuel : ℕ) (cs : List Char) : Option (JsonVal × List Char) :=
  match fuel with
  | 0 => none
  | f + 1 =>
    let cs := skipWs cs
    match cs with
    | [] => none
    | c :: rest =>
      if c = '{' then parseObjRest f rest
      else if c = '[' then parseArrRest f rest
      else if c = '"' then
        match parseStringBody f rest [] with
        | some (s, r) => some (.jstr s, r)
        | none => none
      else if c = 't' then (parseLit ("true".toList) cs).map (fun r => (.jbool true, r))
      else if c = 'f' then (parseLit ("false".toList) cs).map (fun r => (.jbool false, r))
      else if c = 'n' then (parseLit ("null".toList) cs).map (fun r => (.jnull, r))
      else if c = '-' ∨ c.isDigit then parseNumber cs
      else none

/-- After the opening brace of an object. -/
def parseObjRest (fuel : ℕ) (cs : List Char) : Option (JsonVal × List Char) :=
  match fuel with
  | 0 => none
  | f + 1 =>
    let cs := skipWs cs
    match cs with
    | '}' :: r => some (.jobj [], r)
    | _ => parseMembers f cs []

def parseMembers (fuel : ℕ) (cs : List Char) (acc : List (String × JsonVal)) :
    Option (JsonVal × List Char) :=
  match fuel with
  | 0 => none
  | f + 1 =>
    let cs := skipWs cs
    match cs with
    | '"' :: r =>
      match parseStringBody f r [] with
      | none => none
      | some (k, r₂) =>
        match skipWs r₂ with
        | ':' :: r₄ =>
          match parseVal f r₄ with
          | none => none
          | some (v, r₅) =>
            let acc₁ := objInsert acc k v
            match skipWs r₅ with
            | ',' :: r₇ => parseMembers f r₇ acc₁
            | '}' :: r₇ => some (.jobj acc₁, r₇)
            | _ => none
        | _ => none
    | _ => none

/-- After the opening bracket of an array. -/
def parseArrRest (fuel : ℕ) (cs : List Char) : Option (JsonVal × List Char) :=
  match fuel with
  | 0 => none
  | f + 1 =>
    let cs := skipWs cs
    match cs with
    | ']' :: r => some (.jarr [], r)
    | _ => parseElems f cs []

def parseElems (fuel : ℕ) (cs : List Char) (acc : List JsonVal) :
    Option (JsonVal × List Char) :=
  match fuel with
  | 0 => none
  | f + 1 =>
    match parseVal f cs with
    | none => none
    | some (v, r) =>
      match skipWs r with
      | ',' :: r₁ => parseElems f r₁ (acc ++ [v])
      | ']' :: r₁ => some (.jarr (acc ++ [v]), r₁)
      | _ => none

end

/-- `json.loads` on a character list: parse one value and require that only
whitespace remains. -/
def jsonLoadsL (cs : List Char) : Option JsonVal :=
  match parseVal (2 * cs.length + 16) cs with
  | some (v, rest) => if skipWs rest = [] then some v else none
  | none => none

/-- `json.loads` on a string. -/
def jsonLoads (s : String) : Option JsonVal := jsonLoadsL s.toList

/- ### `_light_repair` and the candidate scanners of `json_recorrection.py`. -/

/-- Python regex `\s` over the ASCII range (the inputs of this code base are
ASCII). -/
def isPySpace (c : Char) : Bool :=
  c = ' ' ∨ c = '\t' ∨ c = '\n' ∨ c = '\r' ∨ c = Char.ofNat 11 ∨ c = Char.ofNat 12

/-- `re.sub(r"[\x00-\x1F\x7F]", "", js)`. -/
def stripCtl (cs : List Char) : List Char :=
  cs.filter (fun c => ¬ (c.toNat < 32 ∨ c.toNat = 127))

/-- `re.sub(r",\s*([}\]])", r"\1", js)`: a comma followed by optional
whitespace and a closing bracket is replaced by the bracket alone; the scan
then continues after the bracket (global, non-overlapping, left to right). -/
def dropTrailingCommas (fuel : ℕ) (cs : List Char) : List Char :=
  match fuel, cs with
  | 0, cs => cs
  | _, [] => []
  | f + 1, c :: rest =>
    if c = ',' then
      let ws := rest.takeWhile isPySpace
      match rest.drop ws.length with
      | b :: t₂ =>
        if b = '}' ∨ b = ']' then b :: dropTrailingCommas f t₂
        else c :: dropTrailingCommas f rest
      | [] => c :: dropTrailingCommas f rest
    else c :: dropTrailingCommas f rest

/-- `js.replace("'", '"')`. -/
def swapQuotes (cs : List Char) : List Char :=
  cs.map (fun c => if c = squote then '"' else c)

def isIdentStart (c : Char) : Bool := c.isAlpha ∨ c = '_'

def isIdentChar (c : Char) : Bool := c.isAlphanum ∨ c = '_'

/-- Try to match `([A-Za-z_][A-Za-z0-9_]*)\s*:` at the head of `cs`; on
success return the identifier and the rest after the colon. -/
def matchBareKey (cs : List Char) : Option (List Char × List Char) :=
  let id := cs.takeWhile isIdentChar
  match id with
  | [] => none
  | c :: _ =>
    if ¬ isIdentStart c then none
    else
      let rest := cs.drop id.length
      let rest₂ := rest.drop (rest.takeWhile isPySpace).length
      match rest₂ with
      | ':' :: r => some (id, r)
      | _ => none

/-- `re.sub(r'(?m)(^|[{,\s])([A-Za-z_][A-Za-z0-9_]*)\s*:', r'\1"\2":', js)`:
quote a bare object key when it stands at a line start or right after one of
`{`, `,` or whitespace.  `lineStart` tracks whether the multiline `^` matches
at the current scan position. -/
def quoteBareKeys (fuel : ℕ) (lineStart : Bool) (cs : List Char) : List Char :=
  match fuel, cs with
  | 0, cs => cs
  | _, [] => []
  | f + 1, c :: rest =>
    match (if lineStart then matchBareKey cs else none) with
    | some (id, r) => '"' :: (id ++ '"' :: ':' :: quoteBareKeys f false r)
    | none =>
      if c = '{' ∨ c = ',' ∨ isPySpace c then
        match matchBareKey rest with
        | some (id, r) => c :: '"' :: (id ++ '"' :: ':' :: quoteBareKeys f false r)
        | none => c :: quoteBareKeys f (c = '\n') rest
      else c :: quoteBareKeys f (c = '\n') rest

/-- `_light_repair`: strip control characters, remove trailing commas before a
closing bracket, turn single into double quotes, quote bare keys. -/
def light_repair (cs : List Char) : List Char :=
  let s₁ := stripCtl cs
  let s₂ := dropTrailingCommas (s₁.length + 1) s₁
  let s₃ := swapQuotes s₂
  quoteBareKeys (s₃.length + 1) true s₃

/-- `_strip_bom_ws`: `s.lstrip("﻿").strip()`. -/
def stripBomWs (cs : List Char) : List Char :=
  let noBom := cs.dropWhile (fun c => c = Char.ofNat 0xFEFF)
  (noBom.dropWhile isPySpace).reverse.dropWhile isPySpace |>.reverse

/-- Case-insensitive match of a literal at the head; returns the rest. -/
def matchCI (pat : List Char) (cs : List Char) : Option (List Char) :=
  match pat, cs with
  | [], cs => some cs
  | _, [] => none
  | p :: ps, c :: rest => if p.toLower = c.toLower then matchCI ps rest else none

/-- First occurrence of the (case-sensitive) literal `pat` in `cs`: returns
the characters before it and the rest after it. -/
def findSub (fuel : ℕ) (pat : List Char) (cs : List Char) :
    Option (List Char × List Char) :=
  match fuel, cs with
  | 0, _ => none
  | _, [] => if pat = [] then some ([], []) else none
  | f + 1, c :: rest =>
    if pat.isPrefixOf cs then some ([], cs.drop pat.length)
    else
      match findSub f pat rest with
      | some (bef, aft) => some (c :: bef, aft)
      | none => none

/-- One `re.finditer` pass for a fenced block pattern `opener\s+([\s\S]*?)```
(with `opener` matched case-insensitively): leftmost, non-overlapping; the
greedy `\s+` takes the maximal whitespace run and the lazy body ends at the
first closing fence. -/
def fencePass (fuel : ℕ) (opener : List Char) (cs : List Char) : List (List Char) :=
  match fuel, cs with
  | 0, _ => []
  | _, [] => []
  | f + 1, _ :: rest =>
    match matchCI opener cs with
    | some r₁ =>
      let ws := r₁.takeWhile isPySpace
      if ws = [] then fencePass f opener rest
      else
        match findSub (r₁.length + 1) ("```".toList) (r₁.drop ws.length) with
        | some (content, r₃) => content :: fencePass f opener r₃
        | none => fencePass f opener rest
    | none => fencePass f opener rest

/-- `_collect_code_fence_blocks`: first all ` ```json `-fenced blocks, then
all plainly fenced blocks. -/
def collect_code_fence_blocks (cs : List Char) : List (List Char) :=
  fencePass (cs.length + 1) ("```json".toList) cs
    ++ fencePass (cs.length + 1) ("```".toList) cs

/-- First case-insensitive occurrence of `pat` in `cs`. -/
def findSubCI (fuel : ℕ) (pat : List Char) (cs : List Char) :
    Option (List Char × List Char) :=
  match fuel, cs with
  | 0, _ => none
  | _, [] => if pat = [] then some ([], []) else none
  | f + 1, c :: rest =>
    match matchCI pat cs with
    | some aft => some ([], aft)
    | none =>
      match findSubCI f pat rest with
      | some (bef, aft) => some (c :: bef, aft)
      | none => none

/-- One `re.finditer` pass for `<json>([\s\S]*?)</json>` (case-insensitive). -/
def xmlPass (fuel : ℕ) (cs : List Char) : List (List Char) :=
  match fuel, cs with
  | 0, _ => []
  | _, [] => []
  | f + 1, _ :: rest =>
    match matchCI ("<json>".toList) cs with
    | some r₁ =>
      match findSubCI (r₁.length + 1) ("</json>".toList) r₁ with
      | some (content, r₂) => content :: xmlPass f r₂
      | none => xmlPass f rest
    | none => xmlPass f rest

/-- `_collect_xml_tag_blocks(text, "json")`. -/
def collect_xml_tag_blocks (cs : List Char) : List (List Char) :=
  xmlPass (cs.length + 1) cs

/-- The `json[:=]? { ... }` prefixed form (branch 4 of the candidate scan):
`re.match(r"^\s*json\s*[:=]?\s*(\{[\s\S]*\})\s*$", text, IGNORECASE)`.  The
greedy capture runs from the first brace to the last closing brace that is
followed only by whitespace. -/
def jsonLabelCand (cs : List Char) : Option (List Char) :=
  let t₁ := cs.dropWhile isPySpace
  match matchCI ("json".toList) t₁ with
  | none => none
  | some r₁ =>
    let r₂ := r₁.dropWhile isPySpace
    let r₃ :=
      match r₂ with
      | ':' :: t => t
      | '=' :: t => t
      | _ => r₂
    let body := r₃.dropWhile isPySpace
    match body with
    | '{' :: _ =>
      let trimmed := body.reverse.dropWhile isPySpace |>.reverse
      match trimmed.getLast? with
      | some '}' => some trimmed
      | _ => none
    | _ => none

/-- Stable sort of the candidate spans by decreasing length (Python
`sorted(cands, key=lambda x: -len(x))`). -/
def insertByLen (x : List Char) : List (List Char) → List (List Char)
  | [] => [x]
  | y :: ys => if y.length ≤ x.length then x :: y :: ys else y :: insertByLen x ys

def sortByLenDesc : List (List Char) → List (List Char)
  | [] => []
  | x :: xs => insertByLen x (sortByLenDesc xs)

/-- Deduplicate by the key `(s[:512], len(s))`, keeping the first occurrence
in the already sorted order. -/
def dedupByKey (seen : List (List Char × ℕ)) : List (List Char) → List (List Char)
  | [] => []
  | s :: rest =>
    let key := (s.take 512, s.length)
    if seen.any (fun k => k = key) then dedupByKey seen rest
    else s :: dedupByKey (key :: seen) rest

/-- `_strict_object_candidates`. -/
def strict_object_candidates (cs : List Char) : List (List Char) :=
  let nOpen := cs.count '{'
  let nClose := cs.count '}'
  let padded := if nClose < nOpen then cs ++ List.replicate (nOpen - nClose) '}' else cs
  let text := stripBomWs padded
  let fenced := (collect_code_fence_blocks text).filterMap (fun b =>
    let b := stripBomWs b
    if b.head? = some '{' ∧ b.getLast? = some '}' then some b else none)
  let tagged := (collect_xml_tag_blocks text).filterMap (fun b =>
    let b := stripBomWs b
    if b.head? = some '{' ∧ b.getLast? = some '}' then some b else none)
  let bare := if text.head? = some '{' ∧ text.getLast? = some '}' then [text] else []
  let labeled :=
    match jsonLabelCand text with
    | some b =>
      let b := stripBomWs b
      if b.head? = some '{' ∧ b.getLast? = some '}' then [b] else []
    | none => []
  dedupByKey [] (sortByLenDesc (fenced ++ tagged ++ bare ++ labeled))

/- ### `compare_dict` and `extract_json_from_response`. -/

/-- Path rendering `'.'.join(path) or '<root>'` used in violation messages.
The messages themselves are abbreviated relative to the Python f-strings
(which also interpolate the offending value); only the presence and count of
violations is ever consumed. -/
def pathStr (path : List String) : String :=
  if path = [] then "<root>" else String.intercalate (".") path

mutual

/-- `compare_dict(target, shape, path)`: recursive structural diff of a parsed
value against a schema shape.  Keys whose name contains `thinkings` are
skipped; list targets are checked element-wise against the single prototype
element; empty shape or target lists are satisfied; type leaves are
`isinstance` checks; literal value leaves always pass. -/
def compare_dict (target : JsonVal) (shape : Shape) (path : List String) :
    List String :=
  match shape with
  | .sdict ms =>
    match target with
    | .jobj o => compareMems o ms path
    | _ => [pathStr path ++ (" should be dict")]
  | .slist ps =>
    match target with
    | .jarr ts =>
      match ps, ts with
      | [], _ => []
      | _, [] => []
      | proto :: _, _ =>
        (ts.enum.map (fun ie =>
          compare_dict ie.2 proto (path ++ [("[") ++ toString ie.1 ++ ("]")]))).flatten
    | _ => [pathStr path ++ (" should be list")]
  | .sty ty => if pyIsinstance target ty then [] else [("type mismatch at ") ++ pathStr path]
  | .sval _ => []

/-- The loop over the shape-dict members inside `compare_dict`. -/
def compareMems (o : List (String × JsonVal)) (ms : List (String × Shape))
    (path : List String) : List String :=
  match ms with
  | [] => []
  | (k, vshape) :: rest =>
    (if containsSub k ("thinkings") then []
     else
       match objGet o (normalize_text k) with
       | none => [("missing key: ") ++ pathStr (path ++ [k])]
       | some v => compare_dict v vshape (path ++ [k]))
    ++ compareMems o rest path

end

/-- `_infer_top_type`. -/
def inferTopType : Shape → String
  | .sdict _ => "dict"
  | .slist _ => "list"
  | _ => "unknown"

/-- The required normalized top-level key set of a dict shape (a Python set,
modelled as a deduplicated list). -/
def reqKeysOf : Shape → List String
  | .sdict ms => (ms.map (fun kv => normalize_text kv.1)).dedup
  | _ => []

/-- The penalty triple `(1000*missing_required + len(missing) + top_pen,
-len(js), variant_idx)` ordered lexicographically like a Python tuple. -/
def scoreLt (a b : Int × Int × Int) : Bool :=
  a.1 < b.1 ∨ (a.1 = b.1 ∧ (a.2.1 < b.2.1 ∨ (a.2.1 = b.2.1 ∧ a.2.2 < b.2.2)))

/-- Statistics of one parse variant: the parsed value, the violation list to
report, and its penalty triple. -/
def variantStats (shape : Shape) (expectedTop : String) (reqKeys : List String)
    (js : List Char) (vidx : Int) (parsed : JsonVal) :
    (JsonVal × List String × (Int × Int × Int)) :=
  let topPen : Int :=
    if expectedTop = "dict" then (match parsed with | .jobj _ => 0 | _ => 1000)
    else if expectedTop = "list" then (match parsed with | .jarr _ => 0 | _ => 1000)
    else 0
  let missingRequired : Int :=
    match parsed with
    | .jobj o =>
      if reqKeys ≠ [] then
        ((reqKeys.filter (fun k => ¬ objHasKey o k)).length : Int)
      else 0
    | _ => 0
  let missing := compare_dict parsed shape []
  let report := if missing = [] then
      [("missing_required=") ++ toString missingRequired] else missing
  (parsed, report, (1000 * missingRequired + (missing.length : Int) + topPen,
                    -(js.length : Int), vidx))

/-- The state of the best-candidate fold in `extract_json_from_response`. -/
def extractStep (shape : Shape) (expectedTop : String) (reqKeys : List String)
    (js : List Char) (vidx : Int)
    (best : Option JsonVal × Option (List String) × (Int × Int × Int)) :
    (Option JsonVal × Option (List String) × (Int × Int × Int)) ⊕
      (JsonVal × List String) :=
  match jsonLoadsL js with
  | none => .inl best
  | some parsed =>
    let (p, report, score) := variantStats shape expectedTop reqKeys js vidx parsed
    if score.1 = 0 then .inr (p, [])
    else if scoreLt score best.2.2 then .inl (some p, some report, score)
    else .inl best

/-- The candidate loop of `extract_json_from_response`: for each candidate the
raw text is tried first, then its light repair; a zero-violation parse
returns immediately. -/
def extractLoop (shape : Shape) (expectedTop : String) (reqKeys : List String) :
    List (List Char) → (Option JsonVal × Option (List String) × (Int × Int × Int)) →
    Option JsonVal × Option (List String)
  | [], best => (best.1, best.2.1)
  | raw :: rest, best =>
    match extractStep shape expectedTop reqKeys raw 0 best with
    | .inr (p, v) => (some p, some v)
    | .inl best₁ =>
      match extractStep shape expectedTop reqKeys (light_repair raw) 1 best₁ with
      | .inr (p, v) => (some p, some v)
      | .inl best₂ => extractLoop shape expectedTop reqKeys rest best₂

/-- `extract_json_from_response(llm_output, json_shape)`. -/
def extract_json_from_response (llm_output : String) (json_shape : Shape) :
    Option JsonVal × Option (List String) :=
  let candidates := strict_object_candidates llm_output.toList
  if candidates = [] then (none, none)
  else
    extractLoop json_shape (inferTopType json_shape) (reqKeysOf json_shape)
      candidates (none, none, (1000000000, 1000000000, 1000000000))

/- ### The escalating retry loop `get_json_response`. -/

/-- `THINKING_JSON_ERROR_SHAPE`: the diagnostic block added to escalated
schemas.  Its leaves are literal example values, which `compare_dict` never
checks, except the two list shapes whose prototypes are checked element-wise. -/
def THINKING_JSON_ERROR_SHAPE : Shape :=
  .sdict
    [(("attempts"), .sval (.jint 0)),
     (("root_cause"), .sval (.jstr (""))),
     (("parser_errors"), .slist [.sval (.jstr (""))]),
     (("missing_keys"), .slist [.sval (.jstr (""))]),
     (("extra_keys_after"), .sval (.jint 0)),
     (("smells"), .slist [.sval (.jstr (""))]),
     (("selected_fix"), .sval (.jstr (""))),
     (("applied_patches"), .slist [.sdict [(("rule"), .sval (.jstr (""))),
                                           (("effect"), .sval (.jstr ("")))]]),
     (("notes"), .slist [.sval (.jstr (""))])]

/-- `augment_shape_with_diag(shape)`: add the diagnostic key to a dict shape
unless it is already present.  (Every call site passes a dict shape.) -/
def augment_shape_with_diag (shape : Shape) : Shape :=
  match shape with
  | .sdict ms =>
    if ms.any (fun kv => kv.1 = "thinkings_json_error") then shape
    else .sdict (ms ++ [(("thinkings_json_error"), THINKING_JSON_ERROR_SHAPE)])
  | _ => shape

/-- The outcome of `get_json_response`: either a structured mapping, or the
raw text of the last oracle response (the degraded fallback). -/
inductive JsonOrStr where
  | jsonOut : JsonVal → JsonOrStr
  | rawOut : String → JsonOrStr

/-- The auto-filled diagnostic block recorded when a retried attempt finally
parses without carrying one. -/
def autoFillDiag (attempt : ℕ) : JsonVal :=
  .jobj
    [(("attempts"), .jint (attempt + 1)),
     (("root_cause"), .jstr ("not_provided")),
     (("parser_errors"), .jarr []),
     (("missing_keys"), .jarr []),
     (("extra_keys_after"), .jint 0),
     (("smells"), .jarr []),
     (("selected_fix"), .jstr ("not_provided")),
     (("applied_patches"), .jarr []),
     (("notes"), .jarr [.jstr ("auto-filled")])]

/-- On a zero-violation result of a retried attempt (`attempt > 0`), a parsed
dict lacking the diagnostic key gets it auto-filled. -/
def autoFill (attempt : ℕ) (p : JsonVal) : JsonVal :=
  if attempt = 0 then p
  else
    match p with
    | .jobj o =>
      if objHasKey o ("thinkings_json_error") then p
      else .jobj (objInsert o ("thinkings_json_error") (autoFillDiag attempt))
    | _ => p

/-- The schema against which attempt `i` of `get_json_response` decodes: the
original schema on the first attempt, and the diagnostic-augmented schema on
every escalated retry (each tightened prompt is rebuilt from the original
template, so the augmentation does not stack). -/
def schemaAtAttempt (schema0 : Shape) (i : ℕ) : Shape :=
  if i = 0 then schema0 else augment_shape_with_diag schema0

/-- The attempt loop of `get_json_response`.  `oracle i` is the raw text of
the oracle response on attempt `i` (the oracle itself — prompt assembly,
vendor client — is an external collaborator).  `remaining` counts the
attempts still allowed; `lastResp` is `full_response`. -/
def getJsonAux (oracle : ℕ → String) (schema0 : Shape) :
    ℕ → ℕ → String → JsonOrStr
  | 0, _, lastResp => .rawOut lastResp
  | r + 1, attempt, _ =>
    let resp := oracle attempt
    match extract_json_from_response resp (schemaAtAttempt schema0 attempt) with
    | (some p, some vs) =>
      if vs = [] then .jsonOut (autoFill attempt p)
      else getJsonAux oracle schema0 r (attempt + 1) resp
    | _ => getJsonAux oracle schema0 r (attempt + 1) resp

/-- `get_json_response(prompts, client, model, temperature, max_retries)`:
run up to `max_retries + 1` attempts; on exhaustion return the last raw
response as a plain string. -/
def get_json_response (oracle : ℕ → String) (schema0 : Shape)
    (max_retries : ℕ) : JsonOrStr :=
  getJsonAux oracle schema0 (max_retries + 1) 0 ("")

/- ### `corrector.py`: temperature sweeps, `try_llm_json`, `evaluate`,
`action_pipeline`. -/

/-- Python `round(x, 6)`.  Every temperature reached by the sweeps of this
code base is an exact multiple of 0.1 (bases 0.0/0.1, step 0.2, maxima at or
below 0.9), on which rounding to six decimals is the identity; it is modelled
as the identity. -/
def round6 (q : ℚ) : ℚ := q

/-- The temperature ladder of the `while t <= max_temp + 1e-9` loop of
`try_llm_json`: start at `base`, step by `round(t + step, 6)`.  The fuel
argument only bounds the recursion; every call site passes ample fuel. -/
def sweepTemps (fuel : ℕ) (t maxT step : ℚ) : List ℚ :=
  match fuel with
  | 0 => []
  | f + 1 =>
    if t ≤ maxT + 1 / 1000000000 then t :: sweepTemps f (round6 (t + step)) maxT step
    else []

/-- Ample fuel for every sweep of this code base (at most five rungs). -/
def sweepFuel : ℕ := 16

/-- The role of an oracle call inside `evaluate` / `action_pipeline`; it
identifies which prompt template the call is built from. -/
inductive Stage where
  | security | quality | formatter | reviewer | reflector
deriving DecidableEq

/-- A dict returned by the oracle. -/
abbrev JObj := List (String × JsonVal)

/-- The inner `for _ in range(retries_per_temp)` loop: return the first call
that comes back as a dict.  `oracle t i` abstracts
`llm_infer(prompts=..., temperature=t)` on its `i`-th try at temperature `t`. -/
def firstDictAt (oracle : ℚ → ℕ → Option JObj) (t : ℚ) (retries : ℕ) : Option JObj :=
  (List.range retries).foldl
    (fun acc i => match acc with
      | some d => some d
      | none => oracle t i)
    none

/-- `try_llm_json(llm_infer, prompts, base_temp, max_temp, step,
retries_per_temp)`: walk the temperature ladder, retrying a fixed number of
times per temperature, and return the first dict the oracle produces, or
`None`.  The Python default `retries_per_temp = 2` is passed explicitly at
each call site. -/
def try_llm_json (oracle : ℚ → ℕ → Option JObj)
    (base maxT step : ℚ) (retriesPerTemp : ℕ) : Option JObj :=
  (sweepTemps sweepFuel base maxT step).foldl
    (fun acc t => match acc with
      | some d => some d
      | none => firstDictAt oracle t retriesPerTemp)
    none

/-- `float(qa.get(key, 0.0) or 0.0)`. -/
def getScoreQ (qa : JObj) (k : String) : Option ℚ :=
  pyFloat (pyOrZero (objGetD qa k (.jfloat 0)))

/-- The fixed metrics record returned when the security critic never decodes:
`{"score": -100.0, "leak_detected": True, "leak_reason":
"SEC_EVAL_PARSE_FAIL"}`. -/
def secFailMetrics : JObj :=
  [(("score"), .jfloat (-100)),
   (("leak_detected"), .jbool true),
   (("leak_reason"), .jstr ("SEC_EVAL_PARSE_FAIL"))]

/-- `evaluate(doc_state, core_blob, upper_blob, llm_infer, lang)`.  The
oracle is abstracted per stage and call; the draft text only enters the
prompts, hence only the oracle.  Returns `none` where the Python code would
raise (a non-dict `quality_assessment`, a non-numeric subscore). -/
def evaluate (llm : Stage → ℚ → ℕ → Option JObj) : Option (ℚ × JObj) :=
  match try_llm_json (llm .security) 0 (2/5) (1/5) 2 with
  | none => some (-100, secFailMetrics)
  | some security_report =>
    match try_llm_json (llm .quality) 0 (2/5) (1/5) 2 with
    | none =>
      some (-50,
        [(("score"), .jfloat (-50)),
         (("leak_detected"), objGetD security_report ("leak_detected") (.jbool true)),
         (("leak_reason"), objGetD security_report ("leak_reason") (.jstr ("SEC_OK"))),
         (("quality_assessment"),
            .jobj [(("clarity_score"), .jfloat 0), (("structure_score"), .jfloat 0),
                   (("evidence_score"), .jfloat 0)]),
         (("assessment_summary"), .jstr ("QUALITY_EVAL_PARSE_FAIL"))])
    | some quality_report =>
      match try_llm_json (llm .formatter) 0 (2/5) (1/5) 2 with
      | none =>
        -- local fallback merge
        let leak := pyTruthy (objGetD security_report ("leak_detected") (.jbool true))
        match objGetD quality_report ("quality_assessment") (.jobj []) with
        | .jobj qa =>
          match getScoreQ qa ("clarity_score"), getScoreQ qa ("structure_score"),
              getScoreQ qa ("evidence_score") with
          | some clarity, some structureQ, some evidence =>
            let score := (3/10 * clarity + 2/5 * structureQ + 3/10 * evidence)
              - 100 * (if leak then 1 else 0)
            some (score,
              [(("leak_detected"), .jbool leak),
               (("leak_reason"), objGetD security_report ("leak_reason") (.jstr (""))),
               (("quality_assessment"), .jobj qa),
               (("overall_quality_ok"),
                  .jbool ((!leak) && (decide ((7:ℚ)/10 ≤ clarity)
                            && decide ((7:ℚ)/10 ≤ structureQ)
                            && decide ((7:ℚ)/10 ≤ evidence)))),
               (("assessment_summary"),
                  objGetD quality_report ("assessment_summary") (.jstr (""))),
               (("score"), .jfloat score)])
          | _, _, _ => none
        | _ => none
      | some audit_json =>
        match objGetD audit_json ("quality_assessment") (.jobj []) with
        | .jobj qs =>
          match getScoreQ qs ("clarity_score"), getScoreQ qs ("structure_score"),
              getScoreQ qs ("evidence_score") with
          | some clarity, some structureQ, some evidence =>
            let leakRisk : ℚ :=
              if pyTruthy (objGetD audit_json ("leak_detected") (.jbool true)) then 1 else 0
            let score := (3/10 * clarity + 2/5 * structureQ + 3/10 * evidence)
              - 100 * leakRisk
            some (score, objInsert audit_json ("score") (.jfloat score))
          | _, _, _ => none
        | _ => none

/-- `action_pipeline(current_node, core_blob, upper_blob, llm_infer, lang)`:
the reviewer sweep (base 0.1, max 0.6), then the reflector sweep (base 0.0,
max 0.5); a decode failure of either prunes the branch by returning the
empty list. -/
def action_pipeline (llm : Stage → ℚ → ℕ → Option JObj) : List JsonVal :=
  match try_llm_json (llm .reviewer) (1/10) (3/5) (1/5) 2 with
  | none => []
  | some _plan =>
    match try_llm_json (llm .reflector) 0 (1/2) (1/5) 2 with
    | none => []
    | some final_doc_state => [.jobj final_doc_state]

/- ### The search engine: `ScoredNode`, `DraftNode`, `_pop_with_exploration`,
`refine_tree`. -/

/-- `DraftNode`: one candidate document.  `revisit_index` models the
attribute `_pop_with_exploration` sets on clones (`getattr(..., 0)` reads 0
when it was never set). -/
structure DraftNode where
  draft : String
  citations : JsonVal
  escalation_suggestions : JsonVal
  metrics : JObj
  depth : ℕ
  parent_hash : String
  revisit_index : ℕ

/-- `ScoredNode`: a priority (the negated score) plus a payload; ordering is
by priority alone (`field(compare=False)` on the node). -/
structure ScoredNode where
  priority : ℚ
  node : DraftNode

/-- `heapq.heappop`: remove a minimum-priority entry (the leftmost among
ties; tie order among equal priorities is irrelevant to every property proved
here). -/
def popMin : List ScoredNode → Option (ScoredNode × List ScoredNode)
  | [] => none
  | x :: xs =>
    match popMin xs with
    | none => some (x, [])
    | some (m, rest) =>
      if x.priority ≤ m.priority then some (x, xs) else some (m, x :: rest)

/-- Pop the `k` smallest entries (the `buf` of the ε-explore branch, in pop
order) and return them with the remaining queue. -/
def popKMins : ℕ → List ScoredNode → List ScoredNode × List ScoredNode
  | 0, q => ([], q)
  | k + 1, q =>
    match popMin q with
    | none => ([], q)
    | some (m, r) =>
      let (buf, rest) := popKMins k r
      (m :: buf, rest)

/-- The ε-explore branch: pop the top `k`, choose one (`random.choice`,
modelled by an arbitrary index reduced mod the buffer length), push the rest
back.  `none` models the `IndexError` `random.choice` raises on an empty
buffer (`explore_top_k = 0`). -/
def popKChoose (k choiceIdx : ℕ) (q : List ScoredNode) :
    Option (ScoredNode × List ScoredNode) :=
  let (buf, rest) := popKMins k q
  match buf with
  | [] => none
  | b :: bs =>
    let i := choiceIdx % (b :: bs).length
    some ((b :: bs).getD i b, rest ++ (b :: bs).eraseIdx i)

/-- `_pop_with_exploration(open_queue, epsilon, explore_top_k,
revisit_penalty)`.  `greedyDraw` abstracts the outcome of
`random.random() > epsilon`; `choiceIdx` abstracts `random.choice`.  Whichever
entry is chosen, a clone with an incremented revisit counter is pushed back at
priority `choice.priority - revisit_penalty`.  `none` models the `IndexError`
on an empty queue. -/
def pop_with_exploration (queue : List ScoredNode) (greedyDraw : Bool)
    (choiceIdx exploreTopK : ℕ) (revisitPenalty : ℚ) :
    Option (ScoredNode × List ScoredNode) :=
  match queue with
  | [] => none
  | _ :: _ =>
    let res :=
      if greedyDraw then popMin queue
      else popKChoose (min exploreTopK queue.length) choiceIdx queue
    match res with
    | none => none
    | some (choice, rest) =>
      let cloned : DraftNode :=
        { choice.node with revisit_index := choice.node.revisit_index + 1 }
      some (choice,
        rest ++ [ScoredNode.mk (choice.priority - revisitPenalty) cloned])

/-- Stable insertion into a priority-sorted list (ascending priority). -/
def insertNode (x : ScoredNode) : List ScoredNode → List ScoredNode
  | [] => [x]
  | y :: ys => if x.priority ≤ y.priority then x :: y :: ys else y :: insertNode x ys

/-- `sorted(open_queue)`: stable sort by ascending priority, i.e. best score
first. -/
def sortNodes : List ScoredNode → List ScoredNode
  | [] => []
  | x :: xs => insertNode x (sortNodes xs)

/-- The mutable state of the `refine_tree` main loop. -/
structure SearchState where
  queue : List ScoredNode
  visited : List String
  best : DraftNode
  bestScore : ℚ
  trial : ℕ

/-- The `for new_doc_state in child_candidates` loop of `refine_tree`:
non-dict children are skipped; an empty or already-visited draft is skipped;
otherwise the child is evaluated, a depth+1 node is built, the best pair is
updated on strict improvement and the node is pushed.  `none` models a raised
exception (evaluation failure or a non-string draft reaching `hash_doc`). -/
def processChildren (evalFn : JsonVal → Option (ℚ × JObj))
    (hashFn : String → String) (visited : List String)
    (parentDepth : ℕ) (parentHash : String) :
    List JsonVal → DraftNode × ℚ × List ScoredNode →
    Option (DraftNode × ℚ × List ScoredNode)
  | [], acc => some acc
  | c :: cs, (best, bestScore, q) =>
    match c with
    | .jobj o =>
      let draftV := objGetD o ("draft") (.jstr (""))
      if pyTruthy draftV then
        match draftV with
        | .jstr d =>
          if hashFn d ∈ visited then
            processChildren evalFn hashFn visited parentDepth parentHash cs
              (best, bestScore, q)
          else
            match evalFn c with
            | none => none
            | some (newScore, newMetrics) =>
              let newNode : DraftNode :=
                { draft := d,
                  citations := objGetD o ("citations") (.jarr []),
                  escalation_suggestions := objGetD o ("escalation_suggestions") (.jarr []),
                  metrics := newMetrics,
                  depth := parentDepth + 1,
                  parent_hash := parentHash,
                  revisit_index := 0 }
              let bestPair := if bestScore < newScore then (newNode, newScore)
                              else (best, bestScore)
              processChildren evalFn hashFn visited parentDepth parentHash cs
                (bestPair.1, bestPair.2, q ++ [ScoredNode.mk (-newScore) newNode])
        | _ => none
      else
        processChildren evalFn hashFn visited parentDepth parentHash cs
          (best, bestScore, q)
    | _ =>
      processChildren evalFn hashFn visited parentDepth parentHash cs
        (best, bestScore, q)

/-- One iteration of the `refine_tree` main loop.  `expandFn` abstracts
`action_pipeline(current_node, ...)` and `evalFn` abstracts
`evaluate(new_doc_state, ...)` for this trial; `hashFn` abstracts the SHA-256
hex digest `hash_doc` (cryptographic hashing is not reproduced; every
property below holds for an arbitrary hash function).  The revisit penalty is
the literal `0.05` of the call site. -/
def refineStep (expandFn : DraftNode → List JsonVal)
    (evalFn : JsonVal → Option (ℚ × JObj)) (hashFn : String → String)
    (greedyDraw : Bool) (choiceIdx : ℕ) (maxDepth beamSize exploreTopK : ℕ)
    (s : SearchState) : Option SearchState :=
  match pop_with_exploration s.queue greedyDraw choiceIdx exploreTopK (1/20) with
  | none => none
  | some (currentScored, q₁) =>
    let currentNode := currentScored.node
    if maxDepth ≤ currentNode.depth then
      some { s with queue := q₁, trial := s.trial + 1 }
    else
      let currentHash := hashFn currentNode.draft
      if currentHash ∈ s.visited then
        some { s with queue := q₁, trial := s.trial + 1 }
      else
        let visited₁ := currentHash :: s.visited
        match processChildren evalFn hashFn visited₁ currentNode.depth currentHash
            (expandFn currentNode) (s.best, s.bestScore, q₁) with
        | none => none
        | some (best₁, bestScore₁, q₂) =>
          let q₃ := if beamSize < q₂.length then (sortNodes q₂).take beamSize else q₂
          some { queue := q₃, visited := visited₁, best := best₁,
                 bestScore := bestScore₁, trial := s.trial + 1 }

/-- The `while open_queue and trial_num < max_trial_num` loop.  Every branch
of the body increments the trial counter by exactly one, so `max_trial_num`
iterations of fuel are exactly enough; the per-trial oracle behaviour is
abstracted by trial-indexed expansion/evaluation functions and random draws. -/
def refineLoop (expandS : ℕ → DraftNode → List JsonVal)
    (evalS : ℕ → JsonVal → Option (ℚ × JObj)) (hashFn : String → String)
    (rng : ℕ → Bool × ℕ) (maxDepth beamSize exploreTopK maxTrial : ℕ) :
    ℕ → SearchState → Option SearchState
  | 0, s => some s
  | fuel + 1, s =>
    if s.queue.isEmpty = false ∧ s.trial < maxTrial then
      match refineStep (expandS s.trial) (evalS s.trial) hashFn (rng s.trial).1
          (rng s.trial).2 maxDepth beamSize exploreTopK s with
      | none => none
      | some s₁ => refineLoop expandS evalS hashFn rng maxDepth beamSize
          exploreTopK maxTrial fuel s₁
    else some s

/-- `refine_tree(initial_state, ...)`: evaluate the initial draft state
(`evalInit` abstracts that call), build the depth-0 root, push it at priority
`-s0`, run the loop, and return the best node found. -/
def refine_tree (expandS : ℕ → DraftNode → List JsonVal)
    (evalS : ℕ → JsonVal → Option (ℚ × JObj)) (evalInit : Option (ℚ × JObj))
    (hashFn : String → String) (rng : ℕ → Bool × ℕ)
    (initDraft : String) (initCitations initEsc : JsonVal)
    (maxDepth beamSize maxTrial exploreTopK : ℕ) : Option DraftNode :=
  match evalInit with
  | none => none
  | some (s0, m0) =>
    let root : DraftNode :=
      { draft := initDraft, citations := initCitations,
        escalation_suggestions := initEsc, metrics := m0, depth := 0,
        parent_hash := ("root"), revisit_index := 0 }
    let st : SearchState :=
      { queue := [ScoredNode.mk (-s0) root], visited := [], best := root,
        bestScore := s0, trial := 0 }
    (refineLoop expandS evalS hashFn rng maxDepth beamSize exploreTopK maxTrial
      maxTrial st).map (fun s => s.best)

/- ### Theorems. -/

/-- The raw oracle text of the spec example: `{name: 'a', val: 1,}` (the
single quotes are spelled through `squote`). -/
def c9input : String :=
  String.mk ((("\x7bname: ").toList) ++ [squote, 'a', squote] ++ ((", val: 1,\x7d").toList))

/-- C9: on the input `{name: 'a', val: 1,}` with schema
`{name: str, val: int}`, the light repair removes the trailing comma,
converts single to double quotes and quotes the bare keys, yielding
`{"name": "a", "val": 1}`, and `extract_json_from_response` returns that
mapping with an empty violation list. -/
theorem light_repair_example_decodes_clean :
    light_repair c9input.toList = ("\x7b\"name\": \"a\", \"val\": 1\x7d").toList
    ∧ extract_json_from_response c9input
        (.sdict [(("name"), .sty .pstr), (("val"), .sty .pint)])
        = (some (.jobj [(("name"), .jstr ("a")), (("val"), .jint 1)]), some []) :=
  ⟨rfl, rfl⟩

/-- C4 counterexample: a candidate whose only deviation from the schema is
the omission of the required top-level reasoning key `thinkings` does NOT
decode with zero violations: the top-level required-key count of
`extract_json_from_response` does not exempt reasoning-bucket keys, so the
decode reports `missing_required=1`. -/
theorem thinkings_top_level_key_still_required :
    extract_json_from_response ("\x7b\"a\": 1\x7d")
      (.sdict [(("a"), .sty .pint), (("thinkings"), .sty .pstr)])
      = (some (.jobj [(("a"), .jint 1)]), some [("missing_required=1")])
    ∧ some [("missing_required=1")] ≠ some ([] : List String) :=
  ⟨rfl, by simp⟩

/-- C4 amended: keys whose name contains `thinkings` are exempt from the
recursive structural required-key check (`compare_dict` skips them at every
level), so omitting a nested reasoning key decodes with zero violations;
only the top-level required-key count of `extract_json_from_response` still
counts them. -/
theorem thinkings_exempt_from_structural_check :
    (∀ (o : List (String × JsonVal)) (k : String) (vshape : Shape)
       (ms : List (String × Shape)) (path : List String),
       containsSub k ("thinkings") = true →
       compareMems o ((k, vshape) :: ms) path = compareMems o ms path)
    ∧ extract_json_from_response ("\x7b\"a\": \x7b\"b\": 1\x7d\x7d")
        (.sdict [(("a"), .sdict [(("b"), .sty .pint), (("thinkings"), .sty .pstr)])])
        = (some (.jobj [(("a"), .jobj [(("b"), .jint 1)])]), some []) := by
  constructor
  · intro o k vshape ms path h
    simp [compareMems, h]
  · rfl

/-- Witness for the amended C4 statement at a concrete reasoning key. -/
theorem thinkings_exempt_witness :
    compareMems [] [(("thinkings"), Shape.sty .pstr)] [] = compareMems [] [] [] :=
  thinkings_exempt_from_structural_check.1 [] ("thinkings") (Shape.sty .pstr) [] [] rfl

/-- The attempt loop returns the raw text of the last attempt when every
attempt fails to produce a zero-violation decode. -/
theorem getJsonAux_all_fail (oracle : ℕ → String) (schema0 : Shape) (maxR : ℕ)
    (hfail : ∀ i, i ≤ maxR →
      (extract_json_from_response (oracle i) (schemaAtAttempt schema0 i)).2 ≠ some []) :
    ∀ r attempt lastResp, 1 ≤ r → attempt + r = maxR + 1 →
      getJsonAux oracle schema0 r attempt lastResp = .rawOut (oracle maxR) := by
  intro r
  induction r with
  | zero => intro attempt lastResp h1 _; omega
  | succ k ih =>
    intro attempt lastResp _ hsum
    have hle : attempt ≤ maxR := by omega
    have hf := hfail attempt hle
    simp only [getJsonAux]
    rcases hx : extract_json_from_response (oracle attempt) (schemaAtAttempt schema0 attempt)
      with ⟨p?, v?⟩
    rcases p? with _ | p
    · rcases v? with _ | vs
      · rcases k with _ | k
        · have : attempt = maxR := by omega
          subst this
          simp [getJsonAux]
        · exact ih (attempt + 1) (oracle attempt) (by omega) (by omega)
      · rcases k with _ | k
        · have : attempt = maxR := by omega
          subst this
          simp [getJsonAux]
        · exact ih (attempt + 1) (oracle attempt) (by omega) (by omega)
    · rcases v? with _ | vs
      · rcases k with _ | k
        · have : attempt = maxR := by omega
          subst this
          simp [getJsonAux]
        · exact ih (attempt + 1) (oracle attempt) (by omega) (by omega)
      · have hvs : vs ≠ [] := by
          intro hnil
          rw [hx, hnil] at hf
          exact hf rfl
        rcases k with _ | k
        · have : attempt = maxR := by omega
          subst this
          simp only [hvs, if_neg hvs]
          simp [getJsonAux]
        · simp only [if_neg hvs]
          exact ih (attempt + 1) (oracle attempt) (by omega) (by omega)

/-- C6: if no attempt of `get_json_response` produces a zero-violation decode
within the budget of `max_retries + 1` attempts, the function returns the raw
text of the last oracle response as a plain string (the total model returns
normally; no exception escapes). -/
theorem decode_budget_exhaustion_returns_raw (oracle : ℕ → String)
    (schema0 : Shape) (maxR : ℕ)
    (hfail : ∀ i, i ≤ maxR →
      (extract_json_from_response (oracle i) (schemaAtAttempt schema0 i)).2 ≠ some []) :
    get_json_response oracle schema0 maxR = .rawOut (oracle maxR) :=
  getJsonAux_all_fail oracle schema0 maxR hfail (maxR + 1) 0 ("") (by omega) (by omega)

/-- Witness for C6: an oracle that always answers prose exhausts a budget of
two attempts and the raw text comes back. -/
theorem decode_budget_exhaustion_witness :
    get_json_response (fun _ => ("no json here")) (.sdict [(("a"), .sty .pint)]) 1
      = .rawOut ("no json here") :=
  decode_budget_exhaustion_returns_raw (fun _ => ("no json here"))
    (.sdict [(("a"), .sty .pint)]) 1 (by decide)

/- ### Helper lemmas about the temperature sweep and `try_llm_json`. -/

theorem sweepTemps_cons (f f' : ℕ) (hf : f = f' + 1) (b m s : ℚ)
    (h : b ≤ m + 1 / 1000000000) :
    sweepTemps f b m s = b :: sweepTemps f' (round6 (b + s)) m s := by
  subst hf
  simp only [sweepTemps, if_pos h]

theorem sweepTemps_stop (f f' : ℕ) (hf : f = f' + 1) (b m s : ℚ)
    (h : ¬ b ≤ m + 1 / 1000000000) :
    sweepTemps f b m s = [] := by
  subst hf
  simp only [sweepTemps, if_neg h]

theorem foldl_stay_none {α : Type} (g : α → Option JObj) (hg : ∀ a, g a = none) :
    ∀ l : List α,
      l.foldl (fun acc a => match acc with | some d => some d | none => g a) none = none
  | [] => rfl
  | a :: l => by
    simp only [List.foldl, hg a]
    exact foldl_stay_none g hg l

theorem foldl_stay_some {α : Type} (g : α → Option JObj) (d : JObj) :
    ∀ l : List α,
      l.foldl (fun acc a => match acc with | some x => some x | none => g a) (some d)
        = some d
  | [] => rfl
  | _a :: l => foldl_stay_some g d l

theorem firstDictAt_const_none (t : ℚ) (r : ℕ) :
    firstDictAt (fun _ _ => none) t r = none :=
  foldl_stay_none _ (fun _ => rfl) (List.range r)

theorem try_llm_json_none (b m s : ℚ) (r : ℕ) :
    try_llm_json (fun _ _ => none) b m s r = none :=
  foldl_stay_none _ (fun t => firstDictAt_const_none t r) _

theorem try_llm_json_first_some (oracle : ℚ → ℕ → Option JObj) (b m s : ℚ)
    (r : ℕ) (d : JObj) (ts : List ℚ)
    (hhead : sweepTemps sweepFuel b m s = b :: ts)
    (hfirst : firstDictAt oracle b r = some d) :
    try_llm_json oracle b m s r = some d := by
  unfold try_llm_json
  rw [hhead]
  simp only [List.foldl, hfirst]
  exact foldl_stay_some _ d ts

theorem getScoreQ_float (qa : JObj) (k : String) (c : ℚ)
    (h : objGet qa k = some (.jfloat c)) : getScoreQ qa k = some c := by
  by_cases hc : c = 0 <;>
    simp [getScoreQ, objGetD, h, pyOrZero, pyTruthy, pyFloat, hc]

/- ### C2: a security-critic decode failure is fatal and final. -/

/-- C2: if the security-critic temperature sweep never yields a structured
mapping, `evaluate` returns the fixed score `-100.0` with a metrics record
whose leak flag is forced true, and the result does not depend on the quality
or formatter oracles (those stages are never consulted): any other oracle
whose security stage also fails yields the identical result. -/
theorem security_decode_failure_fatal (llm : Stage → ℚ → ℕ → Option JObj)
    (hsec : try_llm_json (llm .security) 0 (2/5) (1/5) 2 = none) :
    evaluate llm = some (-100, secFailMetrics)
    ∧ objGet secFailMetrics ("leak_detected") = some (.jbool true)
    ∧ ∀ llm₂ : Stage → ℚ → ℕ → Option JObj,
        try_llm_json (llm₂ .security) 0 (2/5) (1/5) 2 = none →
        evaluate llm₂ = evaluate llm := by
  refine ⟨?_, rfl, ?_⟩
  · simp only [evaluate, hsec]
  · intro llm₂ h₂
    simp only [evaluate, hsec, h₂]

/-- Witness for C2 at the oracle that never returns a dict. -/
theorem security_decode_failure_witness :
    evaluate (fun _ _ _ => none) = some (-100, secFailMetrics) :=
  (security_decode_failure_fatal (fun _ _ _ => none) (try_llm_json_none 0 (2/5) (1/5) 2)).1

/- ### C3: the canonical scoring formula. -/

/-- C3: the score computed by `evaluate` equals
`0.3*clarity + 0.4*structure + 0.3*evidence - 100*(1 if leak else 0)`, both
on the formatter path (first conjunct) and on the local fallback taken when
the formatter fails to decode (second conjunct). -/
theorem score_formula (llm : Stage → ℚ → ℕ → Option JObj)
    (sec qual audit : JObj) (qa : JObj) (c s e : ℚ) (l : Bool) :
    ((try_llm_json (llm .security) 0 (2/5) (1/5) 2 = some sec) →
     (try_llm_json (llm .quality) 0 (2/5) (1/5) 2 = some qual) →
     (try_llm_json (llm .formatter) 0 (2/5) (1/5) 2 = some audit) →
     objGet audit ("quality_assessment") = some (.jobj qa) →
     objGet qa ("clarity_score") = some (.jfloat c) →
     objGet qa ("structure_score") = some (.jfloat s) →
     objGet qa ("evidence_score") = some (.jfloat e) →
     objGet audit ("leak_detected") = some (.jbool l) →
     (evaluate llm).map Prod.fst
       = some ((3/10 * c + 2/5 * s + 3/10 * e) - 100 * (if l then (1 : ℚ) else 0)))
    ∧ ((try_llm_json (llm .security) 0 (2/5) (1/5) 2 = some sec) →
       (try_llm_json (llm .quality) 0 (2/5) (1/5) 2 = some qual) →
       (try_llm_json (llm .formatter) 0 (2/5) (1/5) 2 = none) →
       objGet qual ("quality_assessment") = some (.jobj qa) →
       objGet qa ("clarity_score") = some (.jfloat c) →
       objGet qa ("structure_score") = some (.jfloat s) →
       objGet qa ("evidence_score") = some (.jfloat e) →
       objGet sec ("leak_detected") = some (.jbool l) →
       (evaluate llm).map Prod.fst
         = some ((3/10 * c + 2/5 * s + 3/10 * e) - 100 * (if l then (1 : ℚ) else 0))) := by
  constructor
  · intro hsec hqual hfmt hqa hc hs he hl
    simp only [evaluate, hsec, hqual, hfmt, objGetD, hqa, hl, Option.getD,
      getScoreQ_float qa ("clarity_score") c hc,
      getScoreQ_float qa ("structure_score") s hs,
      getScoreQ_float qa ("evidence_score") e he,
      pyTruthy, Option.map]
  · intro hsec hqual hfmt hqa hc hs he hl
    simp only [evaluate, hsec, hqual, hfmt, objGetD, hqa, hl, Option.getD,
      getScoreQ_float qa ("clarity_score") c hc,
      getScoreQ_float qa ("structure_score") s hs,
      getScoreQ_float qa ("evidence_score") e he,
      pyTruthy, Option.map]

/-- The quality assessment of the spec example: clarity 0.8, structure 0.9,
evidence 0.7. -/
def qaC3 : JObj :=
  [(("clarity_score"), .jfloat (4/5)), (("structure_score"), .jfloat (9/10)),
   (("evidence_score"), .jfloat (7/10))]

/-- Oracle exercising the formatter path with no leak. -/
def llmC3a : Stage → ℚ → ℕ → Option JObj :=
  fun st _ _ =>
    match st with
    | .security => some [(("leak_detected"), .jbool false)]
    | .quality => some [(("quality_assessment"), .jobj qaC3)]
    | .formatter =>
      some [(("leak_detected"), .jbool false), (("quality_assessment"), .jobj qaC3)]
    | _ => none

/-- Oracle exercising the local fallback with a detected leak. -/
def llmC3b : Stage → ℚ → ℕ → Option JObj :=
  fun st _ _ =>
    match st with
    | .security => some [(("leak_detected"), .jbool true)]
    | .quality => some [(("quality_assessment"), .jobj qaC3)]
    | _ => none

/-- Witness for C3: clarity 0.8, structure 0.9, evidence 0.7 give score 0.81
without a leak (formatter path) and -99.19 with one (fallback path). -/
theorem score_formula_witness :
    (evaluate llmC3a).map Prod.fst = some (81/100)
    ∧ (evaluate llmC3b).map Prod.fst = some (-9919/100) := by
  have hhead : sweepTemps sweepFuel 0 (2/5) (1/5)
      = 0 :: sweepTemps 15 (round6 (0 + 1/5)) (2/5) (1/5) :=
    sweepTemps_cons sweepFuel 15 rfl 0 (2/5) (1/5) (by norm_num)
  constructor
  · have h := (score_formula llmC3a [(("leak_detected"), .jbool false)]
      [(("quality_assessment"), .jobj qaC3)]
      [(("leak_detected"), .jbool false), (("quality_assessment"), .jobj qaC3)]
      qaC3 (4/5) (9/10) (7/10) false).1
      (try_llm_json_first_some _ 0 (2/5) (1/5) 2 _ _ hhead rfl)
      (try_llm_json_first_some _ 0 (2/5) (1/5) 2 _ _ hhead rfl)
      (try_llm_json_first_some _ 0 (2/5) (1/5) 2 _ _ hhead rfl)
      rfl rfl rfl rfl rfl
    rw [h]
    norm_num
  · have h := (score_formula llmC3b [(("leak_detected"), .jbool true)]
      [(("quality_assessment"), .jobj qaC3)]
      [] qaC3 (4/5) (9/10) (7/10) true).2
      (try_llm_json_first_some _ 0 (2/5) (1/5) 2 _ _ hhead rfl)
      (try_llm_json_first_some _ 0 (2/5) (1/5) 2 _ _ hhead rfl)
      (try_llm_json_none 0 (2/5) (1/5) 2)
      rfl rfl rfl rfl rfl
    rw [h]
    norm_num

/- ### C5: the locally computed `overall_quality_ok` flag. -/

/-- The local merge of `evaluate` taken when the formatter fails to decode:
its `overall_quality_ok` flag is the conjunction of "no leak" with the 0.7
bars on clarity, structure and evidence only. -/
theorem evaluate_fallback_flag (llm : Stage → ℚ → ℕ → Option JObj)
    (sec qual qa : JObj) (c s e : ℚ) (l : Bool)
    (hsec : try_llm_json (llm .security) 0 (2/5) (1/5) 2 = some sec)
    (hqual : try_llm_json (llm .quality) 0 (2/5) (1/5) 2 = some qual)
    (hfmt : try_llm_json (llm .formatter) 0 (2/5) (1/5) 2 = none)
    (hleak : objGet sec ("leak_detected") = some (.jbool l))
    (hqa : objGet qual ("quality_assessment") = some (.jobj qa))
    (hc : objGet qa ("clarity_score") = some (.jfloat c))
    (hs : objGet qa ("structure_score") = some (.jfloat s))
    (he : objGet qa ("evidence_score") = some (.jfloat e)) :
    ∃ sc : ℚ, ∃ m : JObj, evaluate llm = some (sc, m)
      ∧ objGet m ("overall_quality_ok")
          = some (.jbool ((!l) && (decide ((7:ℚ)/10 ≤ c)
              && decide ((7:ℚ)/10 ≤ s) && decide ((7:ℚ)/10 ≤ e)))) := by
  simp only [evaluate, hsec, hqual, hfmt, objGetD, hqa, hleak, Option.getD,
    getScoreQ_float qa ("clarity_score") c hc,
    getScoreQ_float qa ("structure_score") s hs,
    getScoreQ_float qa ("evidence_score") e he, pyTruthy]
  refine ⟨_, _, rfl, ?_⟩
  simp [objGet]

/-- C5 amended: when the formatter critic fails to decode, the local merge
sets `overall_quality_ok` to true exactly when no leak is detected and the
clarity, structure and evidence subscores are each at least 0.7 — the
coverage and consistency subscores are not consulted. -/
theorem fallback_overall_ok_rule (llm : Stage → ℚ → ℕ → Option JObj)
    (sec qual qa : JObj) (c s e : ℚ) (l : Bool)
    (hsec : try_llm_json (llm .security) 0 (2/5) (1/5) 2 = some sec)
    (hqual : try_llm_json (llm .quality) 0 (2/5) (1/5) 2 = some qual)
    (hfmt : try_llm_json (llm .formatter) 0 (2/5) (1/5) 2 = none)
    (hleak : objGet sec ("leak_detected") = some (.jbool l))
    (hqa : objGet qual ("quality_assessment") = some (.jobj qa))
    (hc : objGet qa ("clarity_score") = some (.jfloat c))
    (hs : objGet qa ("structure_score") = some (.jfloat s))
    (he : objGet qa ("evidence_score") = some (.jfloat e)) :
    ∃ sc : ℚ, ∃ m : JObj, evaluate llm = some (sc, m)
      ∧ objGet m ("overall_quality_ok")
          = some (.jbool ((!l) && (decide ((7:ℚ)/10 ≤ c)
              && decide ((7:ℚ)/10 ≤ s) && decide ((7:ℚ)/10 ≤ e)))) :=
  evaluate_fallback_flag llm sec qual qa c s e l hsec hqual hfmt hleak hqa hc hs he

/-- The five-axis quality assessment of the C5 counterexample: the three
merged subscores are high while coverage and consistency are far below the
0.7 bar. -/
def qaC5 : JObj :=
  [(("clarity_score"), .jfloat (9/10)), (("structure_score"), .jfloat (9/10)),
   (("evidence_score"), .jfloat (9/10)), (("coverage_score"), .jfloat (1/10)),
   (("consistency_score"), .jfloat (1/10))]

/-- C5 counterexample oracle: clean security report, the five-axis quality
report above, and a formatter that never decodes. -/
def llmC5 : Stage → ℚ → ℕ → Option JObj :=
  fun st _ _ =>
    match st with
    | .security => some [(("leak_detected"), .jbool false)]
    | .quality => some [(("quality_assessment"), .jobj qaC5)]
    | _ => none

/-- C5 counterexample: with coverage and consistency at 0.1 (far below 0.7)
the locally merged record still carries `overall_quality_ok = true`, so the
flag is not restricted to the case where every quality subscore is at least
0.7. -/
theorem overall_ok_true_despite_low_coverage :
    (∃ sc : ℚ, ∃ m : JObj, evaluate llmC5 = some (sc, m)
       ∧ objGet m ("overall_quality_ok") = some (.jbool true))
    ∧ objGet qaC5 ("coverage_score") = some (.jfloat (1/10))
    ∧ ¬ ((7:ℚ)/10 ≤ 1/10) := by
  have hhead : sweepTemps sweepFuel 0 (2/5) (1/5)
      = 0 :: sweepTemps 15 (round6 (0 + 1/5)) (2/5) (1/5) :=
    sweepTemps_cons sweepFuel 15 rfl 0 (2/5) (1/5) (by norm_num)
  have hd : decide ((7:ℚ)/10 ≤ 9/10) = true := decide_eq_true (by norm_num)
  refine ⟨?_, rfl, by norm_num⟩
  obtain ⟨sc, m, hm, hflag⟩ := evaluate_fallback_flag llmC5
    [(("leak_detected"), .jbool false)] [(("quality_assessment"), .jobj qaC5)]
    qaC5 (9/10) (9/10) (9/10) false
    (try_llm_json_first_some _ 0 (2/5) (1/5) 2 _ _ hhead rfl)
    (try_llm_json_first_some _ 0 (2/5) (1/5) 2 _ _ hhead rfl)
    (try_llm_json_none 0 (2/5) (1/5) 2)
    rfl rfl rfl rfl rfl
  refine ⟨sc, m, hm, ?_⟩
  rw [hflag, hd]
  rfl

/-- Witness for the amended C5 rule at an input where the flag comes out
false because of a low evidence score. -/
def llmC5w : Stage → ℚ → ℕ → Option JObj :=
  fun st _ _ =>
    match st with
    | .security => some [(("leak_detected"), .jbool false)]
    | .quality =>
      some [(("quality_assessment"),
        .jobj [(("clarity_score"), .jfloat (9/10)),
               (("structure_score"), .jfloat (9/10)),
               (("evidence_score"), .jfloat (1/2))])]
    | _ => none

theorem fallback_overall_ok_witness :
    ∃ sc : ℚ, ∃ m : JObj, evaluate llmC5w = some (sc, m)
      ∧ objGet m ("overall_quality_ok") = some (.jbool false) := by
  have hhead : sweepTemps sweepFuel 0 (2/5) (1/5)
      = 0 :: sweepTemps 15 (round6 (0 + 1/5)) (2/5) (1/5) :=
    sweepTemps_cons sweepFuel 15 rfl 0 (2/5) (1/5) (by norm_num)
  obtain ⟨sc, m, hm, hflag⟩ := fallback_overall_ok_rule llmC5w
    [(("leak_detected"), .jbool false)]
    [(("quality_assessment"),
      .jobj [(("clarity_score"), .jfloat (9/10)),
             (("structure_score"), .jfloat (9/10)),
             (("evidence_score"), .jfloat (1/2))])]
    [(("clarity_score"), .jfloat (9/10)), (("structure_score"), .jfloat (9/10)),
     (("evidence_score"), .jfloat (1/2))]
    (9/10) (9/10) (1/2) false
    (try_llm_json_first_some _ 0 (2/5) (1/5) 2 _ _ hhead rfl)
    (try_llm_json_first_some _ 0 (2/5) (1/5) 2 _ _ hhead rfl)
    (try_llm_json_none 0 (2/5) (1/5) 2)
    rfl rfl rfl rfl rfl
  refine ⟨sc, m, hm, ?_⟩
  rw [hflag]
  have hd : decide ((7:ℚ)/10 ≤ 1/2) = false := decide_eq_false (by norm_num)
  rw [hd]
  simp

/- ### C8: the realized temperature ladders. -/

/-- The realized temperature ladder of the reviewer sweep (base 0.1, max
0.6, step 0.2). -/
theorem sweep_ladder_reviewer :
    sweepTemps sweepFuel (1/10) (3/5) (1/5) = [1/10, 3/10, 1/2] := by
  rw [sweepTemps_cons sweepFuel 15 rfl _ _ _ (by norm_num),
      show round6 ((1:ℚ)/10 + 1/5) = 3/10 by norm_num [round6],
      sweepTemps_cons 15 14 rfl _ _ _ (by norm_num),
      show round6 ((3:ℚ)/10 + 1/5) = 1/2 by norm_num [round6],
      sweepTemps_cons 14 13 rfl _ _ _ (by norm_num),
      show round6 ((1:ℚ)/2 + 1/5) = 7/10 by norm_num [round6],
      sweepTemps_stop 13 12 rfl _ _ _ (by norm_num)]

/-- The realized temperature ladder of the reflector sweep (base 0.0, max
0.5, step 0.2). -/
theorem sweep_ladder_reflector :
    sweepTemps sweepFuel 0 (1/2) (1/5) = [0, 1/5, 2/5] := by
  rw [sweepTemps_cons sweepFuel 15 rfl _ _ _ (by norm_num),
      show round6 ((0:ℚ) + 1/5) = 1/5 by norm_num [round6],
      sweepTemps_cons 15 14 rfl _ _ _ (by norm_num),
      show round6 ((1:ℚ)/5 + 1/5) = 2/5 by norm_num [round6],
      sweepTemps_cons 14 13 rfl _ _ _ (by norm_num),
      show round6 ((2:ℚ)/5 + 1/5) = 3/5 by norm_num [round6],
      sweepTemps_stop 13 12 rfl _ _ _ (by norm_num)]

/-- The realized temperature ladder of every evaluation-critic sweep (base
0.0, max 0.4, step 0.2). -/
theorem sweep_ladder_critics :
    sweepTemps sweepFuel 0 (2/5) (1/5) = [0, 1/5, 2/5] := by
  rw [sweepTemps_cons sweepFuel 15 rfl _ _ _ (by norm_num),
      show round6 ((0:ℚ) + 1/5) = 1/5 by norm_num [round6],
      sweepTemps_cons 15 14 rfl _ _ _ (by norm_num),
      show round6 ((1:ℚ)/5 + 1/5) = 2/5 by norm_num [round6],
      sweepTemps_cons 14 13 rfl _ _ _ (by norm_num),
      show round6 ((2:ℚ)/5 + 1/5) = 3/5 by norm_num [round6],
      sweepTemps_stop 13 12 rfl _ _ _ (by norm_num)]

/-- C8 amended: the reviewer sweep of `action_pipeline` (base 0.1, max 0.6)
realizes the temperatures 0.1, 0.3, 0.5; the reflector sweep (base 0.0, max
0.5) realizes 0.0, 0.2, 0.4 — exactly the same temperatures as every
evaluation-critic sweep (base 0.0, max 0.4).  Only the base temperatures of
the reviewer differ; the action-pipeline ladders are not lower than the
critics' ladder, and the reviewer even exceeds its maximum. -/
theorem action_pipeline_temp_ladders :
    sweepTemps sweepFuel (1/10) (3/5) (1/5) = [1/10, 3/10, 1/2]
    ∧ sweepTemps sweepFuel 0 (1/2) (1/5) = [0, 1/5, 2/5]
    ∧ sweepTemps sweepFuel 0 (2/5) (1/5) = [0, 1/5, 2/5] :=
  ⟨sweep_ladder_reviewer, sweep_ladder_reflector, sweep_ladder_critics⟩

/-- C8 counterexample: the reviewer sweep of the action pipeline uses the
temperature 0.5, which is not below the critics' range — it exceeds every
temperature of the critics' sweep (whose maximum realized temperature is
0.4). -/
theorem reviewer_temp_exceeds_critic_range :
    (1/2 : ℚ) ∈ sweepTemps sweepFuel (1/10) (3/5) (1/5)
    ∧ (∀ t ∈ sweepTemps sweepFuel 0 (2/5) (1/5), t ≤ 2/5)
    ∧ ¬ ((1/2 : ℚ) ≤ 2/5) := by
  rw [sweep_ladder_reviewer, sweep_ladder_critics]
  refine ⟨by norm_num, ?_, by norm_num⟩
  intro t ht
  simp only [List.mem_cons, List.not_mem_nil, or_false] at ht
  rcases ht with h | h | h <;> rw [h] <;> norm_num

/- ### C1: the revisit echo of `_pop_with_exploration`. -/

/-- A throwaway draft node for concrete frontier computations. -/
def nodeA : DraftNode :=
  { draft := ("d"), citations := .jarr [], escalation_suggestions := .jarr [],
    metrics := [], depth := 0, parent_hash := ("root"), revisit_index := 0 }

/-- C1 (what the code actually does): popping a singleton frontier pushes
back a clone at priority `popped.priority - 0.05`.  Because the frontier is a
min-oriented structure with `priority = -score`, the strictly smaller
priority of the echo means it ranks strictly BETTER (it would pop before
anything at the popped entry's old rank), not strictly worse as the
specification asserts: the revisit "penalty" is applied with the wrong sign
for a min-heap. -/
theorem revisit_echo_ranks_better :
    pop_with_exploration [ScoredNode.mk (1/2) nodeA] true 0 6 (1/20)
      = some (ScoredNode.mk (1/2) nodeA,
          [ScoredNode.mk ((1/2 : ℚ) - 1/20)
            { nodeA with revisit_index := 1 }])
    ∧ ((1/2 : ℚ) - 1/20 < 1/2) :=
  ⟨rfl, by norm_num⟩

/- ### Size and progress lemmas for the frontier operations. -/

theorem popMin_cons_isSome (x : ScoredNode) (xs : List ScoredNode) :
    (popMin (x :: xs)).isSome := by
  simp only [popMin]
  cases popMin xs with
  | none => rfl
  | some p =>
    rcases p with ⟨m, rest⟩
    by_cases h : x.priority ≤ m.priority <;> simp [h]

theorem popMin_length : ∀ (q : List ScoredNode) (c : ScoredNode)
    (r : List ScoredNode), popMin q = some (c, r) → r.length + 1 = q.length := by
  intro q
  induction q with
  | nil => intro c r h; simp [popMin] at h
  | cons x xs ih =>
    intro c r h
    simp only [popMin] at h
    split at h
    · rename_i hx
      simp only [Option.some.injEq, Prod.mk.injEq] at h
      cases xs with
      | nil => rw [← h.2]; rfl
      | cons y ys =>
        have hs := popMin_cons_isSome y ys
        rw [hx] at hs
        cases hs
    · rename_i m rest hx
      split at h
      · simp only [Option.some.injEq, Prod.mk.injEq] at h
        rw [← h.2]
        rfl
      · simp only [Option.some.injEq, Prod.mk.injEq] at h
        have hlen := ih m rest hx
        rw [← h.2]
        simp only [List.length_cons] at hlen ⊢
        omega

theorem popKMins_length : ∀ (k : ℕ) (q : List ScoredNode),
    (popKMins k q).1.length + (popKMins k q).2.length = q.length := by
  intro k
  induction k with
  | zero => intro q; simp [popKMins]
  | succ k ih =>
    intro q
    simp only [popKMins]
    split
    · simp
    · rename_i m r hq
      have hlen := popMin_length q m r hq
      have hr := ih r
      rcases hbr : popKMins k r with ⟨buf, rest⟩
      rw [hbr] at hr
      dsimp only at hr ⊢
      simp only [List.length_cons]
      omega

theorem pop_with_exploration_spec (q : List ScoredNode) (g : Bool) (ci k : ℕ)
    (p : ℚ) (c : ScoredNode) (q' : List ScoredNode)
    (h : pop_with_exploration q g ci k p = some (c, q')) :
    q'.length = q.length ∧ q' ≠ [] := by
  cases q with
  | nil => simp [pop_with_exploration] at h
  | cons x xs =>
    simp only [pop_with_exploration] at h
    split at h
    · cases h
    · rename_i choice rest hres
      simp only [Option.some.injEq, Prod.mk.injEq] at h
      refine ⟨?_, ?_⟩
      · rw [← h.2]
        by_cases hg : g
        · rw [if_pos hg] at hres
          have hlen := popMin_length _ choice rest hres
          simp only [List.length_append, List.length_cons, List.length_nil] at hlen ⊢
          omega
        · rw [if_neg hg] at hres
          simp only [popKChoose] at hres
          rcases hbr : popKMins (min k (x :: xs).length) (x :: xs) with ⟨buf, restK⟩
          rw [hbr] at hres
          cases buf with
          | nil => cases hres
          | cons b bs =>
            simp only [Option.some.injEq, Prod.mk.injEq] at hres
            have hsum := popKMins_length (min k (x :: xs).length) (x :: xs)
            rw [hbr] at hsum
            have hi : ci % (b :: bs).length < (b :: bs).length :=
              Nat.mod_lt _ (by simp)
            have herase := List.length_eraseIdx_add_one hi
            rw [← hres.2]
            simp only [List.length_append, List.length_cons, List.length_nil]
              at hsum herase ⊢
            omega
      · rw [← h.2]
        simp

theorem insertNode_length (x : ScoredNode) :
    ∀ l : List ScoredNode, (insertNode x l).length = l.length + 1 := by
  intro l
  induction l with
  | nil => rfl
  | cons y ys ih =>
    simp only [insertNode]
    by_cases h : x.priority ≤ y.priority <;> simp [h, ih]

theorem sortNodes_length : ∀ l : List ScoredNode, (sortNodes l).length = l.length := by
  intro l
  induction l with
  | nil => rfl
  | cons x xs ih => simp [sortNodes, insertNode_length, ih]

theorem processChildren_queue_le (evalFn : JsonVal → Option (ℚ × JObj))
    (hashFn : String → String) (visited : List String) (pd : ℕ) (ph : String) :
    ∀ (cs : List JsonVal) (b : DraftNode) (bs : ℚ) (q : List ScoredNode)
      (b' : DraftNode) (bs' : ℚ) (q' : List ScoredNode),
      processChildren evalFn hashFn visited pd ph cs (b, bs, q) = some (b', bs', q') →
      q.length ≤ q'.length := by
  intro cs
  induction cs with
  | nil =>
    intro b bs q b' bs' q' h
    simp only [processChildren, Option.some.injEq, Prod.mk.injEq] at h
    rw [← h.2.2]
  | cons c cs ih =>
    intro b bs q b' bs' q' h
    cases c with
    | jobj o =>
      simp only [processChildren] at h
      split at h
      · split at h
        · rename_i d
          split at h
          · exact ih _ _ _ _ _ _ h
          · split at h
            · cases h
            · have hq := ih _ _ _ _ _ _ h
              simp only [List.length_append, List.length_cons, List.length_nil] at hq
              omega
        all_goals cases h
      · exact ih _ _ _ _ _ _ h
    | jnull => exact ih b bs q b' bs' q' h
    | jbool bb => exact ih b bs q b' bs' q' h
    | jint n => exact ih b bs q b' bs' q' h
    | jfloat qq => exact ih b bs q b' bs' q' h
    | jstr ss => exact ih b bs q b' bs' q' h
    | jarr l => exact ih b bs q b' bs' q' h

theorem refineStep_queue_bound (expandFn : DraftNode → List JsonVal)
    (evalFn : JsonVal → Option (ℚ × JObj)) (hashFn : String → String)
    (g : Bool) (ci maxD beam k : ℕ) (s s' : SearchState)
    (hlen : s.queue.length ≤ beam)
    (h : refineStep expandFn evalFn hashFn g ci maxD beam k s = some s') :
    s'.queue.length ≤ beam := by
  simp only [refineStep] at h
  split at h
  · cases h
  · rename_i cur q₁ hpop
    have hq₁ := (pop_with_exploration_spec _ _ _ _ _ _ _ hpop).1
    split at h
    · injection h with h
      subst h
      simpa [hq₁] using hlen
    · split at h
      · injection h with h
        subst h
        simpa [hq₁] using hlen
      · split at h
        · cases h
        · rename_i b₁ bs₁ q₂ hproc
          injection h with h
          subst h
          dsimp only
          split
          · rename_i hgt
            simp [sortNodes_length]
          · rename_i hle
            omega

theorem refineStep_progress (expandFn : DraftNode → List JsonVal)
    (evalFn : JsonVal → Option (ℚ × JObj)) (hashFn : String → String)
    (g : Bool) (ci maxD beam k : ℕ) (s s' : SearchState)
    (hbeam : 1 ≤ beam)
    (h : refineStep expandFn evalFn hashFn g ci maxD beam k s = some s') :
    s'.queue ≠ [] ∧ s'.trial = s.trial + 1 := by
  simp only [refineStep] at h
  split at h
  · cases h
  · rename_i cur q₁ hpop
    obtain ⟨hq₁len, hq₁ne⟩ := pop_with_exploration_spec _ _ _ _ _ _ _ hpop
    split at h
    · injection h with h
      subst h
      exact ⟨hq₁ne, rfl⟩
    · split at h
      · injection h with h
        subst h
        exact ⟨hq₁ne, rfl⟩
      · split at h
        · cases h
        · rename_i b₁ bs₁ q₂ hproc
          have hq₂ := processChildren_queue_le evalFn hashFn _ _ _ _ _ _ _ _ _ _ hproc
          have hq₁pos : 1 ≤ q₁.length := by
            cases hq : q₁ with
            | nil => exact absurd hq hq₁ne
            | cons a l => simp [hq]
          injection h with h
          subst h
          refine ⟨?_, rfl⟩
          dsimp only
          split
          · rename_i hgt
            have : ((sortNodes q₂).take beam).length = beam := by
              rw [List.length_take, sortNodes_length]
              omega
            intro hnil
            rw [hnil] at this
            simp [sortNodes] at this
            omega
          · rename_i hle
            intro hnil
            rw [hnil] at hq₂
            simp only [List.length_nil, Nat.le_zero] at hq₂
            omega

theorem refineLoop_queue_bound (expandS : ℕ → DraftNode → List JsonVal)
    (evalS : ℕ → JsonVal → Option (ℚ × JObj)) (hashFn : String → String)
    (rng : ℕ → Bool × ℕ) (maxD beam k maxTrial : ℕ) :
    ∀ (fuel : ℕ) (s s' : SearchState), s.queue.length ≤ beam →
      refineLoop expandS evalS hashFn rng maxD beam k maxTrial fuel s = some s' →
      s'.queue.length ≤ beam := by
  intro fuel
  induction fuel with
  | zero =>
    intro s s' hlen h
    simp only [refineLoop, Option.some.injEq] at h
    rw [← h]
    exact hlen
  | succ f ih =>
    intro s s' hlen h
    simp only [refineLoop] at h
    split at h
    · split at h
      · cases h
      · rename_i s₁ hstep
        exact ih s₁ s' (refineStep_queue_bound _ _ _ _ _ _ _ _ _ _ hlen hstep) h
    · simp only [Option.some.injEq] at h
      rw [← h]
      exact hlen

theorem refineLoop_exhausts_budget (expandS : ℕ → DraftNode → List JsonVal)
    (evalS : ℕ → JsonVal → Option (ℚ × JObj)) (hashFn : String → String)
    (rng : ℕ → Bool × ℕ) (maxD beam k maxTrial : ℕ) (hbeam : 1 ≤ beam) :
    ∀ (fuel : ℕ) (s s' : SearchState), s.queue ≠ [] →
      s.trial + fuel = maxTrial →
      refineLoop expandS evalS hashFn rng maxD beam k maxTrial fuel s = some s' →
      s'.trial = maxTrial ∧ s'.queue ≠ [] := by
  intro fuel
  induction fuel with
  | zero =>
    intro s s' hne htr h
    simp only [refineLoop, Option.some.injEq] at h
    rw [← h]
    exact ⟨by omega, hne⟩
  | succ f ih =>
    intro s s' hne htr h
    simp only [refineLoop] at h
    have hcond : (s.queue.isEmpty = false ∧ s.trial < maxTrial) := by
      constructor
      · cases hq : s.queue with
        | nil => exact absurd hq hne
        | cons a l => simp [hq]
      · omega
    rw [if_pos hcond] at h
    split at h
    · cases h
    · rename_i s₁ hstep
      obtain ⟨hne₁, htr₁⟩ :=
        refineStep_progress _ _ _ _ _ _ _ _ _ _ hbeam hstep
      exact ih s₁ s' hne₁ (by omega) h

/- ### C7 and C10: the frontier-size invariant and the trial budget. -/

/-- C7: after every iteration of the `refine_tree` main loop the frontier
holds at most `beam_size` entries — whenever the pop and the child pushes
make it exceed the beam width it is sorted by priority and truncated to the
best `beam_size` entries (first conjunct, one round; second conjunct, any
number of rounds). -/
theorem frontier_bounded_by_beam (maxDepth beamSize exploreTopK : ℕ) :
    (∀ (expandFn : DraftNode → List JsonVal)
       (evalFn : JsonVal → Option (ℚ × JObj)) (hashFn : String → String)
       (g : Bool) (ci : ℕ) (s s' : SearchState),
       s.queue.length ≤ beamSize →
       refineStep expandFn evalFn hashFn g ci maxDepth beamSize exploreTopK s
         = some s' →
       s'.queue.length ≤ beamSize)
    ∧ (∀ (expandS : ℕ → DraftNode → List JsonVal)
         (evalS : ℕ → JsonVal → Option (ℚ × JObj)) (hashFn : String → String)
         (rng : ℕ → Bool × ℕ) (maxTrial fuel : ℕ) (s s' : SearchState),
         s.queue.length ≤ beamSize →
         refineLoop expandS evalS hashFn rng maxDepth beamSize exploreTopK
           maxTrial fuel s = some s' →
         s'.queue.length ≤ beamSize) :=
  ⟨fun expandFn evalFn hashFn g ci s s' hlen h =>
      refineStep_queue_bound expandFn evalFn hashFn g ci maxDepth beamSize
        exploreTopK s s' hlen h,
   fun expandS evalS hashFn rng maxTrial fuel s s' hlen h =>
      refineLoop_queue_bound expandS evalS hashFn rng maxDepth beamSize
        exploreTopK maxTrial fuel s s' hlen h⟩

/-- C10: once the root is pushed the frontier is never empty again — every
pop pushes a degraded clone back and beam truncation keeps at least one entry
(for a positive beam width) — so the frontier-emptiness exit of the loop is
unreachable and a run from trial 0 with fuel `max_trial_num` performs exactly
`max_trial_num` trials (first conjunct: one step preserves nonemptiness and
counts one trial; second conjunct: the full loop ends with the trial counter
at the budget and a nonempty frontier). -/
theorem search_runs_exact_trial_budget (maxDepth beamSize exploreTopK : ℕ)
    (hbeam : 1 ≤ beamSize) :
    (∀ (expandFn : DraftNode → List JsonVal)
       (evalFn : JsonVal → Option (ℚ × JObj)) (hashFn : String → String)
       (g : Bool) (ci : ℕ) (s s' : SearchState),
       refineStep expandFn evalFn hashFn g ci maxDepth beamSize exploreTopK s
         = some s' →
       s'.queue ≠ [] ∧ s'.trial = s.trial + 1)
    ∧ (∀ (expandS : ℕ → DraftNode → List JsonVal)
         (evalS : ℕ → JsonVal → Option (ℚ × JObj)) (hashFn : String → String)
         (rng : ℕ → Bool × ℕ) (maxTrial : ℕ) (s s' : SearchState),
         s.queue ≠ [] → s.trial = 0 →
         refineLoop expandS evalS hashFn rng maxDepth beamSize exploreTopK
           maxTrial maxTrial s = some s' →
         s'.trial = maxTrial ∧ s'.queue ≠ []) :=
  ⟨fun expandFn evalFn hashFn g ci s s' h =>
      refineStep_progress expandFn evalFn hashFn g ci maxDepth beamSize
        exploreTopK s s' hbeam h,
   fun expandS evalS hashFn rng maxTrial s s' hne htr h =>
      refineLoop_exhausts_budget expandS evalS hashFn rng maxDepth beamSize
        exploreTopK maxTrial hbeam maxTrial s s' hne (by omega) h⟩

/-- A concrete singleton search state for the step and loop witnesses. -/
def s0state : SearchState :=
  { queue := [ScoredNode.mk 0 nodeA], visited := [], best := nodeA,
    bestScore := 0, trial := 0 }

/-- The state after one round at `max_depth = 0` (the depth check fires; the
popped entry is replaced by its degraded clone). -/
def s1state : SearchState :=
  { queue := [ScoredNode.mk ((0 : ℚ) - 1/20) { nodeA with revisit_index := 1 }],
    visited := [], best := nodeA, bestScore := 0, trial := 1 }

/-- Witness for C7 at a concrete one-round run with beam width 1. -/
theorem frontier_bounded_witness : s1state.queue.length ≤ 1 :=
  (frontier_bounded_by_beam 0 1 6).1 (fun _ => []) (fun _ => none)
    (fun d => d) true 0 s0state s1state (by decide) rfl

/-- Witness for C10 at a concrete run with beam width 1 and a budget of one
trial. -/
theorem search_exact_budget_witness : s1state.trial = 1 ∧ s1state.queue ≠ [] :=
  (search_runs_exact_trial_budget 0 1 6 (Nat.le_refl 1)).2 (fun _ _ => [])
    (fun _ _ => none) (fun d => d) (fun _ => (true, 0)) 1 s0state s1state
    (List.cons_ne_nil _ _) rfl rfl

/- ### Sanity checks: the embedded parser and decoder on concrete inputs. -/

example : jsonLoads ("\x7b\"a\": 1\x7d") = some (.jobj [(("a"), .jint 1)]) := rfl
example : jsonLoads c9input = none := rfl

example : strict_object_candidates c9input.toList = [c9input.toList] := rfl

example :
    extract_json_from_response ("\x7b\"a\": 1\x7d")
      (.sdict [(("a"), .sty .pint), (("thinkings"), .sty .pstr)])
      = (some (.jobj [(("a"), .jint 1)]), some [("missing_required=1")]) := rfl
example :
    extract_json_from_response ("\x7b\"a\": \x7b\"b\": 1\x7d\x7d")
      (.sdict [(("a"), .sdict [(("b"), .sty .pint), (("thinkings"), .sty .pstr)])])
      = (some (.jobj [(("a"), .jobj [(("b"), .jint 1)])]), some []) := rfl
example : ∃ q, jsonLoads ("[1, 2.5, true, null, \"x\"]")
    = some (.jarr [.jint 1, .jfloat q, .jbool true, .jnull, .jstr ("x")]) ∧ q = 5/2 :=
  ⟨_, rfl, by
    norm_num [digitsToNat, List.foldl, List.takeWhile, show ('2').toNat = 50 from rfl,
      show ('5').toNat = 53 from rfl, show ('5').isDigit = true from rfl,
      show (',').isDigit = false from rfl]⟩
example : jsonLoads ("\x7b\"a\": 1,\x7d") = none := rfl
example : jsonLoads ("01") = none := rfl

end AISteward
